import Mathlib

/-!
Verification development for the Island component of funsearch-ts
(src/typescript/src/programs-database/island.ts).

The embedding is a state-passing translation of the TypeScript class.
JavaScript specifics that matter here are modelled explicitly:

- A JS `Map` with array keys compares keys by object reference, not by
  contents.  A `Signature` therefore carries both its numeric contents
  (`value`) and an allocation identity (`ref`); `getSignature` returns a
  freshly allocated array on every call, modelled by stamping the state
  counter `nextRef` on the produced signature and bumping it.
- Numbers are modelled as rationals, `numPrograms` as a natural number and
  the period as an integer.  The JS remainder of a nonnegative dividend by
  a nonzero divisor d equals the remainder by the absolute value of d; a
  zero divisor yields NaN, modelled as `none`.
- Exceptions are modelled with `Except JsError`.  An access such as
  `implementations[-1]` yields `undefined`, and assigning a field of
  `undefined` throws a `TypeError`; this crash path is the
  `JsError.typeError` constructor, while a deliberately raised error would
  be `JsError.error`.
- Function objects are mutable; mutation is modelled with an explicit heap
  (a list of function records indexed by reference) threaded through the
  operations that mutate their arguments.
- The weighted random draw and the in-cluster sample are the only sources
  of randomness; they are passed in as oracle streams of choices, as the
  spec requires an injectable random source.

Components of the repository that the single provided source file imports
but that are not part of the provided sources (cluster.ts, math.ts,
program.ts, function.ts, parser.ts, types.ts) are modelled from the spec;
each such definition says so in its doc comment.
-/

/-- External function representation (§6): a record with mutable name,
docstring and body fields. -/
structure Func where
  name : String
  docString : String
  body : String
deriving Repr, DecidableEq, Inhabited

/-- External program representation (§6): surrounding context text plus a
replaceable ordered list of contained functions. -/
structure Program where
  preface : String
  functions : List Func
deriving Repr, DecidableEq, Inhabited

/-- Per-test score mapping (types.ts, modelled from the spec §6): an ordered
mapping from test identifier to numeric score, iterated in a stable order. -/
abbrev ScoresPerTest := List (String × ℚ)

/-- A signature as produced by `Island.getSignature`: the ordered numeric
score vector (`value`) together with the allocation identity (`ref`) of the
array object holding it, since a JS `Map` keys arrays by reference. -/
structure Signature where
  ref : ℕ
  value : List ℚ
deriving Repr, DecidableEq, Inhabited

/-- Modelled from the spec: Cluster (§3, §4.2; cluster.ts is not under
src/) — one fixed fitness score plus the member programs, stored as heap
references in registration order. -/
structure Cluster where
  score : ℚ
  members : List ℕ
deriving Repr, DecidableEq, Inhabited

/-- JS exception values as far as this development distinguishes them: a
`typeError` is the runtime crash from touching `undefined`, an `error` is a
deliberately constructed and raised error. -/
inductive JsError where
  | typeError : String → JsError
  | error : String → JsError
deriving Repr, DecidableEq

/-- The state of an `Island` object (island.ts:12-21): constructor fields,
the signature-to-cluster map as an insertion-ordered association list, the
registration counter, and the allocation counter `nextRef` used to model
fresh-array allocation. -/
structure IslandState where
  template : Program
  nameOffunctionToEvolve : String
  functionsPerPrompt : ℕ
  clusterSamplingTemperatureInit : ℚ
  clusterSamplingTemperaturePeriod : ℤ
  clusters : List (Signature × Cluster)
  numPrograms : ℕ
  nextRef : ℕ
deriving Repr, DecidableEq, Inhabited

/-- The Island constructor (island.ts:13-21) applied with the default
arguments `clusters = new Map()` and `numPrograms = 0`.  It performs no
validation of any argument. -/
def Island.make (template : Program) (nameOffunctionToEvolve : String)
    (functionsPerPrompt : ℕ) (temperatureInit : ℚ) (temperaturePeriod : ℤ) :
    IslandState :=
  ⟨template, nameOffunctionToEvolve, functionsPerPrompt, temperatureInit,
    temperaturePeriod, [], 0, 0⟩

/-- island.ts:23-25 — template-literal name `${name}_v${version}`. -/
def getVersionedName (name : String) (version : ℕ) : String :=
  name ++ "_v" ++ toString version

/-- The docstring written for every function after the first
(island.ts:138-141 and 155-158). -/
def improvedDoc (base : String) (version : ℕ) : String :=
  "Improved version of " ++ getVersionedName base version ++ "."

/-- island.ts:32-35 — `Object.values(scoresPerTest).map(Number)`.  The
`map` allocates a fresh array on every call, modelled by stamping the
current `nextRef` of the island on the result. -/
def Island.getSignature (st : IslandState) (scoresPerTest : ScoresPerTest) :
    Signature :=
  ⟨st.nextRef, scoresPerTest.map (fun kv => kv.2)⟩

/-- Modelled from the spec: math.reduceScore (§4.1; math.ts is not under
src/) — the arithmetic mean of the per-test score values. -/
def reduceScore (scoresPerTest : ScoresPerTest) : ℚ :=
  (scoresPerTest.map (fun kv => kv.2)).sum / (scoresPerTest.length : ℚ)

/-- Modelled from the spec: Cluster creation (§3, §4.3) — score fixed at
creation, the first registered program as sole member. -/
def Cluster.make (score : ℚ) (program : ℕ) : Cluster :=
  ⟨score, [program]⟩

/-- Modelled from the spec: Cluster.registerProgram (§4.2) — appends the
program to the members; the score is not altered. -/
def Cluster.registerProgram (c : Cluster) (program : ℕ) : Cluster :=
  ⟨c.score, c.members ++ [program]⟩

/-- Modelled from the spec: Cluster.sampleProgram (§4.2, §9) — returns one
member, selected by an injected choice source. -/
def Cluster.sampleProgram (c : Cluster) (pick : ℕ) : ℕ :=
  c.members.getD (pick % c.members.length) 0

/-- island.ts:66-77 — compute the signature (a fresh array), then either
create a new cluster or append to the one found under that exact array
reference, and increment `numPrograms`.  `Map.has`/`Map.get` compare the
key by reference. -/
def Island.registerProgram (st : IslandState) (program : ℕ)
    (scoresPerTest : ScoresPerTest) : IslandState :=
  let signature := Island.getSignature st scoresPerTest
  let st1 : IslandState := { st with nextRef := st.nextRef + 1 }
  if st1.clusters.any (fun e => e.1.ref == signature.ref) then
    { st1 with
        clusters := st1.clusters.map (fun e =>
          if e.1.ref == signature.ref then
            (e.1, Cluster.registerProgram e.2 program)
          else e),
        numPrograms := st1.numPrograms + 1 }
  else
    { st1 with
        clusters :=
          st1.clusters ++
            [(signature, Cluster.make (reduceScore scoresPerTest) program)],
        numPrograms := st1.numPrograms + 1 }

/-- JS remainder for a nonnegative integer dividend: for a nonzero divisor
it equals the remainder by the absolute value of the divisor, for the
divisor 0 it is NaN, modelled as `none`. -/
def jsMod (n : ℕ) (d : ℤ) : Option ℕ :=
  if d = 0 then none else some (n % d.natAbs)

/-- island.ts:37-43 — the temperature getter
`T0 * (1 - (numPrograms % period) / period)`.  The result is `none` exactly
when the JS computation yields NaN (period 0); no error is ever raised. -/
def Island.temperature (st : IslandState) : Option ℚ :=
  (jsMod st.numPrograms st.clusterSamplingTemperaturePeriod).map (fun m =>
    st.clusterSamplingTemperatureInit *
      (1 - (m : ℚ) / (st.clusterSamplingTemperaturePeriod : ℚ)))

/-- island.ts:51-53 — `Array.from(this.clusters.keys())`, the signatures in
map insertion order. -/
def Island.signatures (st : IslandState) : List Signature :=
  st.clusters.map (fun e => e.1)

/-- island.ts:45-49 — each signature looked back up in the map (by
reference), `?.score || 0`. -/
def Island.scores (st : IslandState) : List ℚ :=
  (Island.signatures st).map (fun s =>
    match st.clusters.find? (fun e => e.1.ref == s.ref) with
    | some e => e.2.score
    | none => 0)

/-- island.ts:109-112 — `Array.from({length}, (_, i) => i).sort((a, b) =>
scores[a] - scores[b])`.  `Array.prototype.sort` is required by the
language standard to be a stable sort consistent with the comparator, which
on an index array is exactly a stable insertion sort by score. -/
def indicesSortedByScore (scores : List ℚ) : List ℕ :=
  List.insertionSort (fun a b => scores.getD a 0 ≤ scores.getD b 0)
    (List.range scores.length)

/-- island.ts:100-107 — the loop collecting one sampled implementation and
the cluster score per chosen signature; a missing cluster (only possible
when the signature lookup itself produced `undefined`) is skipped by the
`if (cluster)` guard.  `picks` is the oracle stream consumed by
`Cluster.sampleProgram`, advanced once per successful fetch. -/
def collectSamples (st : IslandState) (picks : ℕ → ℕ) :
    List (Option Signature) → ℕ → List ℕ × List ℚ
  | [], _ => ([], [])
  | none :: rest, j => collectSamples st picks rest j
  | some sig :: rest, j =>
      match st.clusters.find? (fun e => e.1.ref == sig.ref) with
      | none => collectSamples st picks rest j
      | some e =>
          let r := collectSamples st picks rest (j + 1)
          (Cluster.sampleProgram e.2 (picks j) :: r.1, e.2.score :: r.2)

/-- Whether a character may occur in a JS identifier (ASCII fragment). -/
def isIdentChar (c : Char) : Bool :=
  c.isAlphanum || c == '_'

/-- Replaces the text between the current identifier run and what follows:
a run equal to the old name is replaced by the new name, any other run is
kept. -/
def flushRun (oldName newName run : List Char) : List Char :=
  if run = oldName then newName else run

/-- Single pass over the body text, splitting it into maximal identifier
runs and other characters, replacing exactly the runs equal to the old
name. -/
def renameIdentAux (oldName newName : List Char) :
    List Char → List Char → List Char
  | run, [] => flushRun oldName newName run
  | run, c :: cs =>
      if isIdentChar c then renameIdentAux oldName newName (run ++ [c]) cs
      else
        flushRun oldName newName run ++
          (c :: renameIdentAux oldName newName [] cs)

/-- Modelled from the spec: renameFunctionCalls (§6; parser.ts is not under
src/) — rewrites exactly the whole-identifier occurrences of the old name
inside the function body and returns a structure of the same shape; the
name and docstring fields are preserved.  The source passes the rendered
text and receives the re-parsed structure; the render/parse round trip is
absorbed here. -/
def renameFunctionCalls (f : Func) (oldName newName : String) : Func :=
  { f with
      body :=
        String.mk (renameIdentAux oldName.toList newName.toList [] f.body.toList) }

/-- Modelled from the spec: Function.toString (§6) — the textual rendering
of one function; the exact format is external to the core. -/
def renderFunc (f : Func) : String :=
  f.name ++ "\n" ++ f.docString ++ "\n" ++ f.body ++ "\n"

/-- Modelled from the spec: Program.toString (§6) — renders the template
text around its function list. -/
def renderProgram (p : Program) : String :=
  p.preface ++ String.join (p.functions.map renderFunc)

/-- island.ts:134-147 — the `forEach` body: mutate the heap object behind
each implementation reference (set its versioned name, and from the second
one on overwrite its docstring), then push the re-parsed renamed copy onto
`versionedFunctions`.  Returns the mutated heap and the pushed list. -/
def promptLoop (base : String) :
    List ℕ → ℕ → List Func → List Func × List Func
  | [], _, heap => (heap, [])
  | r :: rest, i, heap =>
      let f := heap.getD r default
      let f1 : Func := { f with name := getVersionedName base i }
      let f2 : Func :=
        if 0 < i then { f1 with docString := improvedDoc base (i - 1) } else f1
      let heap1 := heap.set r f2
      let g := renameFunctionCalls f2 base f2.name
      let res := promptLoop base rest (i + 1) heap1
      (res.1, g :: res.2)

/-- island.ts:127-166 — version the implementations, build the header by
mutating the last input implementation object in place (empty body, next
version name, improved docstring), append it, assign the list into the
island template and render it.  On an empty input list,
`implementations[implementations.length - 1]` is `implementations[-1]`,
which is `undefined`, and the assignment `header.name = ...` throws a
`TypeError`; no explicit error is constructed anywhere. -/
def Island.generatePrompt (st : IslandState) (heap : List Func)
    (implementations : List ℕ) :
    Except JsError (String × IslandState × List Func) :=
  let base := st.nameOffunctionToEvolve
  let lp := promptLoop base implementations 0 heap
  match implementations.getLast? with
  | none =>
      Except.error (JsError.typeError ("Cannot set properties of undefined"))
  | some lastRef =>
      let n := implementations.length
      let header : Func :=
        ⟨getVersionedName base n, improvedDoc base (n - 1), ""⟩
      let heap2 := lp.1.set lastRef header
      let versionedFunctions := lp.2 ++ [header]
      let newTemplate : Program := ⟨st.template.preface, versionedFunctions⟩
      let st2 : IslandState := { st with template := newTemplate }
      Except.ok (renderProgram newTemplate, st2, heap2)

/-- island.ts:86-95 — `min(signatures.length, functionsPerPrompt)` indices
drawn from the weighted-draw oracle, each looked up in the signature list
(`chosenSignatures` in the source).  `draws` stands for the sequence of
values produced by math.getRandomWeightedIndex (modelled from the spec
§4.1: each produced value is an index into the probability vector, whose
length is the number of signatures). -/
def Island.chosenSignatures (st : IslandState) (draws : ℕ → ℕ) :
    List (Option Signature) :=
  ((List.range (min (Island.signatures st).length
      st.functionsPerPrompt)).map draws).map
    (fun i => (Island.signatures st)[i]?)

/-- island.ts:109-117 — the `(implementation, clusterScore)` pairs of the
draw, stable-sorted ascending by score (`sortedImplementations` in the
source). -/
def Island.sortedImplementations (st : IslandState) (draws picks : ℕ → ℕ) :
    List ℕ :=
  (indicesSortedByScore
      (collectSamples st picks (Island.chosenSignatures st draws) 0).2).map
    (fun i =>
      (collectSamples st picks (Island.chosenSignatures st draws) 0).1.getD i 0)

/-- island.ts:83-120 — fetch one sampled implementation per drawn
signature, stable-sort them ascending by cluster score, and delegate to
`generatePrompt`; the returned version number (`versionGenerated`) is one
past the number of sampled slots. -/
def Island.getPrompt (st : IslandState) (heap : List Func)
    (draws picks : ℕ → ℕ) :
    Except JsError (String × ℕ × IslandState × List Func) :=
  (Island.generatePrompt st heap
      (Island.sortedImplementations st draws picks)).map (fun r =>
    (r.1, (Island.sortedImplementations st draws picks).length + 1,
      r.2.1, r.2.2))

/-- All signature references stored in the cluster map are older than the
allocation counter; this is the freshness property that makes every
`getSignature` result a brand-new key. -/
def RefsFresh (st : IslandState) : Prop :=
  ∀ e ∈ st.clusters, e.1.ref < st.nextRef

/-- A one-test score mapping used as concrete input. -/
def oneTestScores : ScoresPerTest := [(("t1"), 1)]

/-- An island differing from a freshly constructed one only in the three
fields the temperature getter reads. -/
def islandWith (T0 : ℚ) (P : ℤ) (n : ℕ) : IslandState :=
  { Island.make ⟨("") , []⟩ ("f") 0 T0 P with numPrograms := n }

/-- A fresh island registered with one program, for exercising getPrompt. -/
def stC5 : IslandState :=
  Island.registerProgram (Island.make ⟨("p"), []⟩ ("f") 3 1 10) 0 oneTestScores

/-- The one-function heap matching `stC5`. -/
def heapC5 : List Func := [⟨("f"), ("d"), ("x")⟩]

/-- The value getPrompt produces on the concrete island `stC5`. -/
def rC5 : String × ℕ × IslandState × List Func :=
  match Island.getPrompt stC5 heapC5 (fun _ => 0) (fun _ => 0) with
  | Except.ok r => r
  | Except.error _ => default

/-- A concrete island for exercising generatePrompt directly. -/
def stC7 : IslandState := Island.make ⟨("pre"), []⟩ ("f") 2 1 10

/-- A one-function heap for `stC7`. -/
def heapC7 : List Func := [⟨("f"), ("doc"), ("x")⟩]

/-- The value generatePrompt produces on `stC7` with implementation 0. -/
def rC7 : String × IslandState × List Func :=
  match Island.generatePrompt stC7 heapC7 [0] with
  | Except.ok r => r
  | Except.error _ => default

/-- A concrete island for observing the frame effects of generatePrompt. -/
def stC10 : IslandState := Island.make ⟨("pre"), []⟩ ("g") 2 1 10

/-- A three-function heap for `stC10`; index 2 is untouched by the call. -/
def heapC10 : List Func :=
  [⟨("a"), ("da"), ("xa")⟩, ⟨("b"), ("db"), ("xb")⟩, ⟨("c"), ("dc"), ("xc")⟩]

/-- The value generatePrompt produces on `stC10` with implementations 0, 1. -/
def rC10 : String × IslandState × List Func :=
  match Island.generatePrompt stC10 heapC10 [0, 1] with
  | Except.ok r => r
  | Except.error _ => default

/-- C1: the spec requires one cluster with two members after registering the
same scoresPerTest twice on a fresh Island (signatures keyed by value), but
the code keys the cluster map by the reference of the array that
getSignature freshly allocates on every call, so the same score mapping
registered twice lands in two distinct single-member clusters whose
signature values are both the same sequence. -/
theorem C1_reference_keyed_clusters :
    (Island.registerProgram
        (Island.registerProgram (Island.make ⟨("") , []⟩ ("f") 2 1 10)
          0 oneTestScores)
        1 oneTestScores).clusters.length = 2 ∧
    (Island.registerProgram
        (Island.registerProgram (Island.make ⟨("") , []⟩ ("f") 2 1 10)
          0 oneTestScores)
        1 oneTestScores).numPrograms = 2 ∧
    (Island.registerProgram
        (Island.registerProgram (Island.make ⟨("") , []⟩ ("f") 2 1 10)
          0 oneTestScores)
        1 oneTestScores).clusters.map (fun e => e.2.members.length) = [1, 1] ∧
    (Island.registerProgram
        (Island.registerProgram (Island.make ⟨("") , []⟩ ("f") 2 1 10)
          0 oneTestScores)
        1 oneTestScores).clusters.map (fun e => e.1.value) = [[1], [1]] := by
  decide

/-- C2: after two registrations with the identical score mapping,
numPrograms (2) does equal the sum of the member counts, but the cluster
map holds two distinct entries (distinct references 0 and 1) whose
signature values are the same sequence, violating the at-most-one-entry-
per-distinct-signature-value half of the claimed invariant. -/
theorem C2_value_equal_duplicate_entries :
    (Island.registerProgram
        (Island.registerProgram (Island.make ⟨("") , []⟩ ("f") 2 1 10)
          0 oneTestScores)
        1 oneTestScores).numPrograms = 2 ∧
    ((Island.registerProgram
        (Island.registerProgram (Island.make ⟨("") , []⟩ ("f") 2 1 10)
          0 oneTestScores)
        1 oneTestScores).clusters.map (fun e => e.2.members.length)).sum = 2 ∧
    (Island.registerProgram
        (Island.registerProgram (Island.make ⟨("") , []⟩ ("f") 2 1 10)
          0 oneTestScores)
        1 oneTestScores).clusters.map (fun e => e.1.ref) = [0, 1] ∧
    (Island.registerProgram
        (Island.registerProgram (Island.make ⟨("") , []⟩ ("f") 2 1 10)
          0 oneTestScores)
        1 oneTestScores).clusters.map (fun e => e.1.value) = [[1], [1]] := by
  decide

/-- C3: generatePrompt on an empty implementations list, and getPrompt on
an island with zero clusters, both fail with the TypeError raised by
assigning a field of `undefined` after the out-of-bounds access
`implementations[implementations.length - 1]`; no explicit
no-programs-available error is ever constructed. -/
theorem C3_empty_prompt_crashes :
    Island.generatePrompt (Island.make ⟨("") , []⟩ ("f") 2 1 10) [] [] =
      Except.error (JsError.typeError ("Cannot set properties of undefined")) ∧
    Island.getPrompt (Island.make ⟨("") , []⟩ ("f") 2 1 10) []
        (fun _ => 0) (fun _ => 0) =
      Except.error (JsError.typeError ("Cannot set properties of undefined")) :=
  ⟨rfl, rfl⟩

/-- C8: the constructor stores a nonpositive clusterSamplingTemperaturePeriod
without any check, and the first temperature read on such an island
silently produces an ordinary number (here T0 = 1, period = -2 and one
registered program give 3/2, which even exceeds T0); no configuration
error is raised at construction or at the temperature read. -/
theorem C8_no_error_on_nonpositive_period :
    (Island.make ⟨("") , []⟩ ("f") 0 1 (-2)).clusterSamplingTemperaturePeriod
        = -2 ∧
    Island.temperature (islandWith 1 (-2) 1) = some (3 / 2) := by
  refine ⟨rfl, ?_⟩
  simp only [Island.temperature, islandWith, Island.make, jsMod]
  norm_num

/-- For a positive period the temperature getter computes the documented
sawtooth formula, with the JS remainder being the ordinary remainder. -/
theorem temperature_of_pos_period (st : IslandState)
    (hP : 0 < st.clusterSamplingTemperaturePeriod) :
    Island.temperature st =
      some (st.clusterSamplingTemperatureInit *
        (1 -
          ((st.numPrograms % st.clusterSamplingTemperaturePeriod.toNat : ℕ) : ℚ) /
            (st.clusterSamplingTemperaturePeriod : ℚ))) := by
  have hd : st.clusterSamplingTemperaturePeriod ≠ 0 := by omega
  have habs : st.clusterSamplingTemperaturePeriod.natAbs =
      st.clusterSamplingTemperaturePeriod.toNat := by omega
  simp [Island.temperature, jsMod, hd, habs]

/-- C4 (amended): for every island whose integer period P is positive the
temperature getter computes T0 * (1 - (numPrograms mod P) / P); the value
is T0 at numPrograms = 0 and again at numPrograms = P; and provided T0 is
positive the value strictly decreases as numPrograms ranges over [0, P). -/
theorem C4_temperature_schedule (st : IslandState)
    (hP : 0 < st.clusterSamplingTemperaturePeriod) :
    Island.temperature st =
      some (st.clusterSamplingTemperatureInit *
        (1 -
          ((st.numPrograms % st.clusterSamplingTemperaturePeriod.toNat : ℕ) : ℚ) /
            (st.clusterSamplingTemperaturePeriod : ℚ))) ∧
    Island.temperature { st with numPrograms := 0 } =
      some st.clusterSamplingTemperatureInit ∧
    Island.temperature
        { st with numPrograms := st.clusterSamplingTemperaturePeriod.toNat } =
      some st.clusterSamplingTemperatureInit ∧
    (0 < st.clusterSamplingTemperatureInit →
      ∀ n1 n2 : ℕ, n1 < n2 → (n2 : ℤ) < st.clusterSamplingTemperaturePeriod →
        ∀ t1 t2 : ℚ,
          Island.temperature { st with numPrograms := n1 } = some t1 →
          Island.temperature { st with numPrograms := n2 } = some t2 →
          t2 < t1) := by
  refine ⟨temperature_of_pos_period st hP, ?_, ?_, ?_⟩
  · rw [temperature_of_pos_period { st with numPrograms := 0 } hP]
    norm_num
  · rw [temperature_of_pos_period
      { st with numPrograms := st.clusterSamplingTemperaturePeriod.toNat } hP]
    norm_num
  · intro hT0 n1 n2 h12 h2P t1 t2 ht1 ht2
    rw [temperature_of_pos_period { st with numPrograms := n1 } hP] at ht1
    rw [temperature_of_pos_period { st with numPrograms := n2 } hP] at ht2
    have e1 := Option.some.inj ht1
    have e2 := Option.some.inj ht2
    have hn2lt : n2 < st.clusterSamplingTemperaturePeriod.toNat := by omega
    have hn1lt : n1 < st.clusterSamplingTemperaturePeriod.toNat := by omega
    rw [Nat.mod_eq_of_lt hn1lt] at e1
    rw [Nat.mod_eq_of_lt hn2lt] at e2
    have hPQ : (0 : ℚ) < (st.clusterSamplingTemperaturePeriod : ℚ) := by
      exact_mod_cast hP
    have hn : ((n1 : ℚ)) < ((n2 : ℚ)) := by exact_mod_cast h12
    have hdiv : (n1 : ℚ) / (st.clusterSamplingTemperaturePeriod : ℚ) <
        (n2 : ℚ) / (st.clusterSamplingTemperaturePeriod : ℚ) := by
      rw [div_eq_mul_inv, div_eq_mul_inv]
      exact mul_lt_mul_of_pos_right hn (inv_pos.mpr hPQ)
    rw [← e1, ← e2]
    exact mul_lt_mul_of_pos_left (sub_lt_sub_left hdiv 1) hT0

/-- C4 counterexample: with T0 = 0 and period 2, the temperatures at
numPrograms = 0 and numPrograms = 1 coincide although both counts lie in
[0, P); the claimed strict decrease over [0, P) fails when T0 is not
positive. -/
theorem C4_not_strictly_decreasing_for_zero_T0 :
    (islandWith 0 2 0).clusterSamplingTemperatureInit = 0 ∧
    0 < (islandWith 0 2 0).clusterSamplingTemperaturePeriod ∧
    (islandWith 0 2 0).numPrograms = 0 ∧
    (islandWith 0 2 1).numPrograms = 1 ∧
    ((islandWith 0 2 1).numPrograms : ℤ) <
      (islandWith 0 2 0).clusterSamplingTemperaturePeriod ∧
    Island.temperature (islandWith 0 2 0) =
      Island.temperature (islandWith 0 2 1) := by
  refine ⟨rfl, by decide, rfl, rfl, by decide, ?_⟩
  simp [Island.temperature, jsMod, islandWith, Island.make]

/-- C4 witness: the schedule theorem applied to the concrete island with
T0 = 1, P = 2 gives temperature T0 at zero registered programs. -/
theorem C4_temperature_schedule_witness :
    Island.temperature { islandWith 1 2 5 with numPrograms := 0 } = some 1 :=
  (C4_temperature_schedule (islandWith 1 2 5) (by decide)).2.1

/-- Under reference freshness the membership test inside registerProgram is
always false — the freshly allocated signature array is never already a key
of the map — so every registration appends a brand-new single-member
cluster entry and bumps both counters. -/
theorem registerProgram_fresh_eq (st : IslandState) (program : ℕ)
    (scoresPerTest : ScoresPerTest) (h : RefsFresh st) :
    Island.registerProgram st program scoresPerTest =
      { st with
          nextRef := st.nextRef + 1,
          clusters := st.clusters ++
            [(⟨st.nextRef, scoresPerTest.map (fun kv => kv.2)⟩,
              Cluster.make (reduceScore scoresPerTest) program)],
          numPrograms := st.numPrograms + 1 } := by
  have hc : (st.clusters.any (fun e => e.1.ref == st.nextRef)) = false := by
    rw [List.any_eq_false]
    intro e he
    have := h e he
    simp only [beq_iff_eq]
    omega
  simp [Island.registerProgram, Island.getSignature, hc]

/-- Folding registerProgram over any list of (program, scores) inputs
preserves freshness, appends exactly one cluster entry per input, bumps
numPrograms once per input, and every entry not present initially is a
single-member cluster. -/
theorem foldl_registerProgram (regs : List (ℕ × ScoresPerTest)) :
    ∀ st : IslandState, RefsFresh st →
      RefsFresh
          (regs.foldl (fun s pr => Island.registerProgram s pr.1 pr.2) st) ∧
      (regs.foldl (fun s pr => Island.registerProgram s pr.1 pr.2)
            st).clusters.length = st.clusters.length + regs.length ∧
      (regs.foldl (fun s pr => Island.registerProgram s pr.1 pr.2)
            st).numPrograms = st.numPrograms + regs.length ∧
      ∀ e ∈ (regs.foldl (fun s pr => Island.registerProgram s pr.1 pr.2)
          st).clusters, e ∈ st.clusters ∨ e.2.members.length = 1 := by
  induction regs with
  | nil =>
      intro st h
      exact ⟨h, by simp, by simp, fun e he => Or.inl he⟩
  | cons pr rest ih =>
      intro st h
      have hstep := registerProgram_fresh_eq st pr.1 pr.2 h
      have hfresh : RefsFresh (Island.registerProgram st pr.1 pr.2) := by
        rw [hstep]
        intro e he
        simp only [List.mem_append, List.mem_singleton] at he
        rcases he with he | he
        · have := h e he
          simp only []
          omega
        · subst he
          simp only []
          omega
      have hrec := ih (Island.registerProgram st pr.1 pr.2) hfresh
      have hcl : (Island.registerProgram st pr.1 pr.2).clusters.length =
          st.clusters.length + 1 := by rw [hstep]; simp
      have hnp : (Island.registerProgram st pr.1 pr.2).numPrograms =
          st.numPrograms + 1 := by rw [hstep]
      refine ⟨hrec.1, ?_, ?_, ?_⟩
      · rw [List.foldl_cons, hrec.2.1, hcl]
        simp only [List.length_cons]
        omega
      · rw [List.foldl_cons, hrec.2.2.1, hnp]
        simp only [List.length_cons]
        omega
      · intro e he
        rw [List.foldl_cons] at he
        rcases hrec.2.2.2 e he with h1 | h1
        · rw [hstep] at h1
          simp only [List.mem_append, List.mem_singleton] at h1
          rcases h1 with h1 | h1
          · exact Or.inl h1
          · subst h1
            exact Or.inr rfl
        · exact Or.inr h1

/-- C9: on a freshly constructed island, any sequence of n registerProgram
calls leaves exactly n cluster entries, each holding exactly one member,
with numPrograms = n — one brand-new (reference-keyed) cluster per
registration regardless of repeated score mappings. -/
theorem C9_each_registration_new_cluster (template : Program) (name : String)
    (fpp : ℕ) (T0 : ℚ) (P : ℤ) (regs : List (ℕ × ScoresPerTest)) :
    (regs.foldl (fun s pr => Island.registerProgram s pr.1 pr.2)
        (Island.make template name fpp T0 P)).clusters.length = regs.length ∧
    (regs.foldl (fun s pr => Island.registerProgram s pr.1 pr.2)
        (Island.make template name fpp T0 P)).numPrograms = regs.length ∧
    ∀ e ∈ (regs.foldl (fun s pr => Island.registerProgram s pr.1 pr.2)
        (Island.make template name fpp T0 P)).clusters,
      e.2.members.length = 1 := by
  have h0 : RefsFresh (Island.make template name fpp T0 P) := by
    intro e he
    simp [Island.make] at he
  have h := foldl_registerProgram regs (Island.make template name fpp T0 P) h0
  refine ⟨?_, ?_, ?_⟩
  · have := h.2.1
    simpa [Island.make] using this
  · have := h.2.2.1
    simpa [Island.make] using this
  · intro e he
    rcases h.2.2.2 e he with h1 | h1
    · simp [Island.make] at h1
    · exact h1

/-- Inserting an index that is smaller (earlier in draw order) than every
index already present keeps the list pairwise-ordered by score with ties in
draw order. -/
theorem orderedInsert_lex_pairwise (scores : List ℚ) (x : ℕ) :
    ∀ l : List ℕ,
      l.Pairwise (fun a b =>
        scores.getD a 0 < scores.getD b 0 ∨
          (scores.getD a 0 = scores.getD b 0 ∧ a < b)) →
      (∀ b ∈ l, x < b) →
      (List.orderedInsert (fun a b => scores.getD a 0 ≤ scores.getD b 0) x
          l).Pairwise (fun a b =>
        scores.getD a 0 < scores.getD b 0 ∨
          (scores.getD a 0 = scores.getD b 0 ∧ a < b)) := by
  intro l
  induction l with
  | nil =>
      intro _ _
      simp
  | cons b t ih =>
      intro hp hx
      simp only [List.orderedInsert]
      by_cases hle : scores.getD x 0 ≤ scores.getD b 0
      · rw [if_pos hle]
        constructor
        · intro y hy
          rcases List.mem_cons.mp hy with rfl | hyt
          · rcases lt_or_eq_of_le hle with hlt | heq
            · exact Or.inl hlt
            · exact Or.inr ⟨heq, hx _ (List.mem_cons_self _ _)⟩
          · have hby := (List.pairwise_cons.mp hp).1 y hyt
            have hxy : x < y := hx y (List.mem_cons_of_mem _ hyt)
            rcases hby with h1 | h1
            · rcases lt_or_eq_of_le hle with h2 | h2
              · exact Or.inl (lt_trans h2 h1)
              · exact Or.inl (h2 ▸ h1)
            · rcases lt_or_eq_of_le hle with h2 | h2
              · exact Or.inl (h1.1 ▸ h2)
              · exact Or.inr ⟨h2.trans h1.1, hxy⟩
        · exact hp
      · rw [if_neg hle]
        have hbx : scores.getD b 0 < scores.getD x 0 := not_le.mp hle
        constructor
        · intro y hy
          rcases (List.mem_orderedInsert _).mp hy with rfl | hyt
          · exact Or.inl hbx
          · exact (List.pairwise_cons.mp hp).1 y hyt
        · exact ih (List.pairwise_cons.mp hp).2
            (fun z hz => hx z (List.mem_cons_of_mem _ hz))

/-- Insertion sort by score of a strictly increasing index list (the draw
positions) is pairwise-ordered by score with ties kept in draw order. -/
theorem insertionSort_lex_pairwise (scores : List ℚ) :
    ∀ l : List ℕ, l.Pairwise (· < ·) →
      (List.insertionSort (fun a b => scores.getD a 0 ≤ scores.getD b 0)
          l).Pairwise (fun a b =>
        scores.getD a 0 < scores.getD b 0 ∨
          (scores.getD a 0 = scores.getD b 0 ∧ a < b)) := by
  intro l
  induction l with
  | nil =>
      intro _
      simp
  | cons x t ih =>
      intro hp
      simp only [List.insertionSort]
      apply orderedInsert_lex_pairwise
      · exact ih (List.pairwise_cons.mp hp).2
      · intro b hb
        have hmem : b ∈ t := (List.perm_insertionSort _ t).subset hb
        exact (List.pairwise_cons.mp hp).1 b hmem

/-- C6: the index sort of island.ts:109-116 is a stable ascending sort by
cluster score — its output is a permutation of the draw positions, scores
are nondecreasing along it, and positions of equal score stay in their
original draw order. -/
theorem C6_stable_sort_by_score (scores : List ℚ) :
    (indicesSortedByScore scores).Perm (List.range scores.length) ∧
    (indicesSortedByScore scores).Pairwise
      (fun a b => scores.getD a 0 ≤ scores.getD b 0) ∧
    (indicesSortedByScore scores).Pairwise
      (fun a b => scores.getD a 0 = scores.getD b 0 → a < b) := by
  have hlex := insertionSort_lex_pairwise scores (List.range scores.length)
    (List.pairwise_lt_range _)
  refine ⟨List.perm_insertionSort _ _, ?_, ?_⟩
  · refine hlex.imp ?_
    intro a b h
    rcases h with h | h
    · exact le_of_lt h
    · exact le_of_eq h.1
  · refine hlex.imp ?_
    intro a b h heq
    rcases h with h | h
    · exact absurd heq (ne_of_lt h)
    · exact h.2

/-- Writing one heap cell leaves every other cell unchanged. -/
theorem getD_set_ne {α : Type} [Inhabited α] (l : List α) (i j : ℕ)
    (h : i ≠ j) (a : α) :
    (l.set i a).getD j default = l.getD j default := by
  simp [List.getElem?_set_ne h]

/-- Writing one heap cell in range makes that cell hold the written value. -/
theorem getD_set_self {α : Type} [Inhabited α] (l : List α) (i : ℕ)
    (h : i < l.length) (a : α) :
    (l.set i a).getD i default = a := by
  simp [List.getElem?_set_self h]

/-- The loop pushes exactly one versioned function per implementation. -/
theorem promptLoop_snd_length (base : String) :
    ∀ (l : List ℕ) (i : ℕ) (heap : List Func),
      (promptLoop base l i heap).2.length = l.length := by
  intro l
  induction l with
  | nil =>
      intro i heap
      rfl
  | cons r rest ih =>
      intro i heap
      simp [promptLoop, ih]

/-- The j-th pushed function carries the (i + j)-th versioned name. -/
theorem promptLoop_snd_name (base : String) :
    ∀ (l : List ℕ) (i : ℕ) (heap : List Func) (j : ℕ), j < l.length →
      ((promptLoop base l i heap).2.getD j default).name =
        getVersionedName base (i + j) := by
  intro l
  induction l with
  | nil =>
      intro i heap j hj
      simp at hj
  | cons r rest ih =>
      intro i heap j hj
      cases j with
      | zero =>
          by_cases hi : 0 < i <;>
            simp [promptLoop, renameFunctionCalls, hi]
      | succ j =>
          have hj2 : j < rest.length := by simpa using hj
          have heq : i + (j + 1) = (i + 1) + j := by omega
          rw [heq]
          simpa [promptLoop] using ih (i + 1) _ j hj2

/-- From the second slot on, the j-th pushed function carries the improved
docstring mentioning the previous version. -/
theorem promptLoop_snd_doc (base : String) :
    ∀ (l : List ℕ) (i : ℕ) (heap : List Func) (j : ℕ), j < l.length →
      0 < i + j →
      ((promptLoop base l i heap).2.getD j default).docString =
        improvedDoc base (i + j - 1) := by
  intro l
  induction l with
  | nil =>
      intro i heap j hj _
      simp at hj
  | cons r rest ih =>
      intro i heap j hj hpos
      cases j with
      | zero =>
          have hi : 0 < i := by omega
          simp [promptLoop, renameFunctionCalls, hi]
      | succ j =>
          have hj2 : j < rest.length := by simpa using hj
          have heq : i + (j + 1) = (i + 1) + j := by omega
          rw [heq]
          simpa [promptLoop] using ih (i + 1) _ j hj2 (by omega)

/-- The loop never changes the size of the heap. -/
theorem promptLoop_fst_length (base : String) :
    ∀ (l : List ℕ) (i : ℕ) (heap : List Func),
      (promptLoop base l i heap).1.length = heap.length := by
  intro l
  induction l with
  | nil =>
      intro i heap
      rfl
  | cons r rest ih =>
      intro i heap
      simp [promptLoop, ih]

/-- The loop only writes heap cells listed among the implementations. -/
theorem promptLoop_fst_frame (base : String) :
    ∀ (l : List ℕ) (i : ℕ) (heap : List Func) (j : ℕ), j ∉ l →
      (promptLoop base l i heap).1.getD j default = heap.getD j default := by
  intro l
  induction l with
  | nil =>
      intro i heap j _
      rfl
  | cons r rest ih =>
      intro i heap j hj
      have hjr : r ≠ j := fun h => hj (h ▸ List.mem_cons_self r rest)
      have hjrest : j ∉ rest := fun h => hj (List.mem_cons_of_mem _ h)
      simp only [promptLoop]
      rw [ih (i + 1) _ j hjrest, getD_set_ne _ _ _ hjr]

/-- generatePrompt on a list with a last element: the explicit result. -/
theorem generatePrompt_eq (st : IslandState) (heap : List Func)
    (implementations : List ℕ) (lastRef : ℕ)
    (hlast : implementations.getLast? = some lastRef) :
    Island.generatePrompt st heap implementations =
      Except.ok
        (renderProgram
            ⟨st.template.preface,
              (promptLoop st.nameOffunctionToEvolve implementations 0 heap).2 ++
                [⟨getVersionedName st.nameOffunctionToEvolve
                      implementations.length,
                    improvedDoc st.nameOffunctionToEvolve
                      (implementations.length - 1), ""⟩]⟩,
          { st with
              template :=
                ⟨st.template.preface,
                  (promptLoop st.nameOffunctionToEvolve implementations 0
                        heap).2 ++
                    [⟨getVersionedName st.nameOffunctionToEvolve
                          implementations.length,
                        improvedDoc st.nameOffunctionToEvolve
                          (implementations.length - 1), ""⟩]⟩ },
          (promptLoop st.nameOffunctionToEvolve implementations 0 heap).1.set
            lastRef
            ⟨getVersionedName st.nameOffunctionToEvolve implementations.length,
              improvedDoc st.nameOffunctionToEvolve
                (implementations.length - 1), ""⟩) := by
  unfold Island.generatePrompt
  rw [hlast]

/-- generatePrompt on a list with no last element: the TypeError result. -/
theorem generatePrompt_nil_eq (st : IslandState) (heap : List Func)
    (implementations : List ℕ) (h : implementations.getLast? = none) :
    Island.generatePrompt st heap implementations =
      Except.error (JsError.typeError ("Cannot set properties of undefined")) := by
  unfold Island.generatePrompt
  rw [h]

/-- C7: on a non-empty implementations list of length n, generatePrompt
injects a function list of length n + 1 into the template, whose i-th entry
is named base_vi for every i up to and including n, whose entries from
index 1 up to and including the header carry the docstring referencing the
previous version, and whose final header entry has an empty body. -/
theorem C7_generatePrompt_versioned_list (st : IslandState) (heap : List Func)
    (implementations : List ℕ) (r : String × IslandState × List Func)
    (hr : Island.generatePrompt st heap implementations = Except.ok r) :
    r.2.1.template.functions.length = implementations.length + 1 ∧
    (∀ i, i ≤ implementations.length →
      (r.2.1.template.functions.getD i default).name =
        getVersionedName st.nameOffunctionToEvolve i) ∧
    (∀ i, 0 < i → i ≤ implementations.length →
      (r.2.1.template.functions.getD i default).docString =
        improvedDoc st.nameOffunctionToEvolve (i - 1)) ∧
    (r.2.1.template.functions.getD implementations.length default).body
      = ("") := by
  cases hlast : implementations.getLast? with
  | none =>
      rw [generatePrompt_nil_eq st heap implementations hlast] at hr
      exact absurd hr (by simp)
  | some lastRef =>
      rw [generatePrompt_eq st heap implementations lastRef hlast] at hr
      have he := Except.ok.inj hr
      have hfs : r.2.1.template.functions =
          (promptLoop st.nameOffunctionToEvolve implementations 0 heap).2 ++
            [⟨getVersionedName st.nameOffunctionToEvolve
                  implementations.length,
                improvedDoc st.nameOffunctionToEvolve
                  (implementations.length - 1), ""⟩] := by
        rw [← he]
      have hlen := promptLoop_snd_length st.nameOffunctionToEvolve
        implementations 0 heap
      refine ⟨?_, ?_, ?_, ?_⟩
      · rw [hfs]
        simp [hlen]
      · intro i hi
        rw [hfs]
        rcases Nat.lt_or_ge i implementations.length with hilt | hige
        · rw [List.getD_append _ _ _ _ (by rw [hlen]; exact hilt)]
          have := promptLoop_snd_name st.nameOffunctionToEvolve
            implementations 0 heap i (by omega)
          simpa using this
        · have hieq : i = implementations.length := by omega
          subst hieq
          rw [List.getD_append_right _ _ _ _ (by rw [hlen])]
          rw [hlen, Nat.sub_self]
          rfl
      · intro i hipos hi
        rw [hfs]
        rcases Nat.lt_or_ge i implementations.length with hilt | hige
        · rw [List.getD_append _ _ _ _ (by rw [hlen]; exact hilt)]
          have := promptLoop_snd_doc st.nameOffunctionToEvolve
            implementations 0 heap i (by omega) (by omega)
          simpa using this
        · have hieq : i = implementations.length := by omega
          subst hieq
          rw [List.getD_append_right _ _ _ _ (by rw [hlen])]
          rw [hlen, Nat.sub_self]
          rfl
      · rw [hfs]
        rw [List.getD_append_right _ _ _ _ (by rw [hlen])]
        rw [hlen, Nat.sub_self]
        rfl

/-- C7 witness: the theorem applied to a concrete island with one
implementation: the function at index 1 (the header) is named f_v1 and has
an empty body. -/
theorem C7_generatePrompt_versioned_list_witness :
    Island.generatePrompt stC7 heapC7 [0] = Except.ok rC7 ∧
    (rC7.2.1.template.functions.getD 1 default).name =
      getVersionedName ("f") 1 ∧
    (rC7.2.1.template.functions.getD 1 default).body = ("") := by
  have hok : Island.generatePrompt stC7 heapC7 [0] = Except.ok rC7 := rfl
  refine ⟨hok, ?_, ?_⟩
  · exact (C7_generatePrompt_versioned_list stC7 heapC7 [0] rC7 hok).2.1 1
      (by decide)
  · exact (C7_generatePrompt_versioned_list stC7 heapC7 [0] rC7 hok).2.2.2

/-- C10: generatePrompt on a non-empty implementations list mutates state
that outlives the call: the returned island has its own template object
rewritten in place — same preface, functions slot overwritten with the
versioned list — and the heap object behind the last input implementation
reference has been overwritten in place with the header (versioned name,
improved docstring, empty body), while heap cells outside the
implementation list are untouched. -/
theorem C10_generatePrompt_frame_effects (st : IslandState) (heap : List Func)
    (implementations : List ℕ) (lastRef : ℕ)
    (hvalid : implementations.all (fun x => decide (x < heap.length)) = true)
    (hlast : implementations.getLast? = some lastRef)
    (r : String × IslandState × List Func)
    (hr : Island.generatePrompt st heap implementations = Except.ok r) :
    r.2.1.template.preface = st.template.preface ∧
    r.2.1.template.functions.length = implementations.length + 1 ∧
    r.2.2.length = heap.length ∧
    r.2.2.getD lastRef default =
      ⟨getVersionedName st.nameOffunctionToEvolve implementations.length,
        improvedDoc st.nameOffunctionToEvolve (implementations.length - 1),
        ""⟩ ∧
    (∀ j, j ∉ implementations →
      r.2.2.getD j default = heap.getD j default) := by
  have hvalid2 : ∀ x ∈ implementations, x < heap.length := by
    intro x hx
    have := List.all_eq_true.mp hvalid x hx
    simpa using this
  have hlastmem : lastRef ∈ implementations :=
    List.mem_of_getLast?_eq_some hlast
  rw [generatePrompt_eq st heap implementations lastRef hlast] at hr
  have he := Except.ok.inj hr
  have hpre : r.2.1.template.preface = st.template.preface := by
    rw [← he]
  have hfs : r.2.1.template.functions =
      (promptLoop st.nameOffunctionToEvolve implementations 0 heap).2 ++
        [⟨getVersionedName st.nameOffunctionToEvolve implementations.length,
            improvedDoc st.nameOffunctionToEvolve
              (implementations.length - 1), ""⟩] := by
    rw [← he]
  have hheap : r.2.2 =
      (promptLoop st.nameOffunctionToEvolve implementations 0 heap).1.set
        lastRef
        ⟨getVersionedName st.nameOffunctionToEvolve implementations.length,
          improvedDoc st.nameOffunctionToEvolve
            (implementations.length - 1), ""⟩ := by
    rw [← he]
  have hlplen := promptLoop_fst_length st.nameOffunctionToEvolve
    implementations 0 heap
  refine ⟨hpre, ?_, ?_, ?_, ?_⟩
  · rw [hfs]
    simp [promptLoop_snd_length]
  · rw [hheap]
    simp [hlplen]
  · rw [hheap]
    exact getD_set_self _ _ (by rw [hlplen]; exact hvalid2 lastRef hlastmem) _
  · intro j hj
    have hjne : lastRef ≠ j := fun h => hj (h ▸ hlastmem)
    rw [hheap, getD_set_ne _ _ _ hjne,
      promptLoop_fst_frame st.nameOffunctionToEvolve implementations 0 heap j hj]

/-- C10 witness: the theorem applied to a concrete island, a three-cell
heap and implementations 0 and 1: the cell behind the last implementation
now holds the header g_v2 with empty body, and the untouched cell 2 still
holds its original record. -/
theorem C10_generatePrompt_frame_effects_witness :
    Island.generatePrompt stC10 heapC10 [0, 1] = Except.ok rC10 ∧
    rC10.2.2.getD 1 default =
      ⟨getVersionedName ("g") 2, improvedDoc ("g") 1, ("")⟩ ∧
    rC10.2.2.getD 2 default = ⟨("c"), ("dc"), ("xc")⟩ := by
  have hok : Island.generatePrompt stC10 heapC10 [0, 1] = Except.ok rC10 := rfl
  have h := C10_generatePrompt_frame_effects stC10 heapC10 [0, 1] 1
    (by decide) (by decide) rC10 hok
  refine ⟨hok, ?_, ?_⟩
  · exact h.2.2.2.1
  · exact (h.2.2.2.2 2 (by decide)).trans rfl

/-- When every chosen signature is present (a some whose reference is found
in the cluster map), the collection loop produces exactly one
implementation and one score per chosen signature. -/
theorem collectSamples_length (st : IslandState) (picks : ℕ → ℕ) :
    ∀ (l : List (Option Signature)) (j : ℕ),
      (∀ o ∈ l, ∃ sig, o = some sig ∧
          (st.clusters.find? (fun e => e.1.ref == sig.ref)).isSome) →
      (collectSamples st picks l j).1.length = l.length ∧
      (collectSamples st picks l j).2.length = l.length := by
  intro l
  induction l with
  | nil =>
      intro j _
      exact ⟨rfl, rfl⟩
  | cons o rest ih =>
      intro j h
      obtain ⟨sig, rfl, hfind⟩ := h o (List.mem_cons_self o rest)
      have ihr := ih (j + 1) (fun o ho => h o (List.mem_cons_of_mem _ ho))
      cases hf : st.clusters.find? (fun e => e.1.ref == sig.ref) with
      | none =>
          rw [hf] at hfind
          simp at hfind
      | some e =>
          simp only [collectSamples, hf]
          constructor
          · simpa using ihr.1
          · simpa using ihr.2

/-- C5: whenever getPrompt returns, every one of the
k = min(functionsPerPrompt, number of signatures) in-range draws
contributed exactly one sampled implementation, the returned version number
is k + 1, and the function list put into the template has k + 1 entries
(the k sampled slots plus the header). -/
theorem C5_version_counts_sampled_slots (st : IslandState) (heap : List Func)
    (draws picks : ℕ → ℕ)
    (hdraws : ((List.range (min (Island.signatures st).length
        st.functionsPerPrompt)).map draws).all
        (fun i => decide (i < (Island.signatures st).length)) = true)
    (r : String × ℕ × IslandState × List Func)
    (hr : Island.getPrompt st heap draws picks = Except.ok r) :
    r.2.1 = min st.functionsPerPrompt st.clusters.length + 1 ∧
    r.2.2.1.template.functions.length =
      min st.functionsPerPrompt st.clusters.length + 1 := by
  have hchosen : ∀ o ∈ Island.chosenSignatures st draws, ∃ sig,
      o = some sig ∧
        (st.clusters.find? (fun e => e.1.ref == sig.ref)).isSome := by
    intro o ho
    unfold Island.chosenSignatures at ho
    rcases List.mem_map.mp ho with ⟨i, hi, rfl⟩
    have hlt : i < (Island.signatures st).length := by
      have := List.all_eq_true.mp hdraws i hi
      simpa using this
    refine ⟨(Island.signatures st)[i], by simp [List.getElem?_eq_getElem hlt], ?_⟩
    rw [List.find?_isSome]
    have hsigmem : (Island.signatures st)[i] ∈ Island.signatures st :=
      List.getElem_mem hlt
    unfold Island.signatures at hsigmem
    rcases List.mem_map.mp hsigmem with ⟨e, he, heq⟩
    refine ⟨e, he, ?_⟩
    rw [heq]
    simp [Island.signatures]
  have hcl := collectSamples_length st picks
    (Island.chosenSignatures st draws) 0 hchosen
  have hchlen : (Island.chosenSignatures st draws).length =
      min (Island.signatures st).length st.functionsPerPrompt := by
    unfold Island.chosenSignatures
    simp
  have hsorted : (Island.sortedImplementations st draws picks).length =
      min (Island.signatures st).length st.functionsPerPrompt := by
    unfold Island.sortedImplementations indicesSortedByScore
    simp only [List.length_map, List.length_insertionSort, List.length_range]
    rw [hcl.2, hchlen]
  have hmin : min (Island.signatures st).length st.functionsPerPrompt =
      min st.functionsPerPrompt st.clusters.length := by
    unfold Island.signatures
    simp [Nat.min_comm]
  unfold Island.getPrompt at hr
  cases hgen : Island.generatePrompt st heap
      (Island.sortedImplementations st draws picks) with
  | error e =>
      rw [hgen] at hr
      simp [Except.map] at hr
  | ok q =>
      rw [hgen] at hr
      simp only [Except.map] at hr
      have he := Except.ok.inj hr
      have hver : r.2.1 = (Island.sortedImplementations st draws picks).length
          + 1 := by
        rw [← he]
      have hstate : r.2.2.1 = q.2.1 := by
        rw [← he]
      refine ⟨?_, ?_⟩
      · rw [hver, hsorted, hmin]
      · cases hlast : (Island.sortedImplementations st draws picks).getLast? with
        | none =>
            rw [generatePrompt_nil_eq st heap _ hlast] at hgen
            exact absurd hgen (by simp)
        | some lastRef =>
            rw [generatePrompt_eq st heap _ lastRef hlast] at hgen
            have hq := Except.ok.inj hgen
            rw [hstate, ← hq]
            simp only [List.length_append, List.length_cons, List.length_nil,
              promptLoop_snd_length]
            rw [hsorted, hmin]

/-- C5 witness: on a concrete island with one cluster and
functionsPerPrompt 3, one slot is sampled and getPrompt returns version
number 2. -/
theorem C5_version_counts_sampled_slots_witness :
    Island.getPrompt stC5 heapC5 (fun _ => 0) (fun _ => 0) = Except.ok rC5 ∧
    rC5.2.1 = 2 := by
  have hok : Island.getPrompt stC5 heapC5 (fun _ => 0) (fun _ => 0) =
      Except.ok rC5 := rfl
  refine ⟨hok, ?_⟩
  have h := C5_version_counts_sampled_slots stC5 heapC5 (fun _ => 0)
    (fun _ => 0) (by decide) rC5 hok
  exact h.1.trans (by decide)
